import Mathlib

/-!
Verification of the VECM / Johansen estimation engine
(statsmodels/tsa/vector_ar/vecm.py) against its specification.

Shallow-embedding conventions:
* numeric data is modelled over `ℚ` (the float arithmetic of the source, taken
  exact);
* matrices are `Matrix (Fin m) (Fin n) ℚ` where shapes matter, and lists of
  rows or columns where the source slices arrays positionally;
* fallible routines return `Except String _` with the error kind as message.

Several bodies of the source file are absent from the repository (only their
signatures and docstrings are present); those routines are modelled from the
specification, as marked in the corresponding doc comments.

The file first gives all definitions, then all lemmas and theorems.
-/

namespace VecmSpec

open Matrix

/-! ### Definitions -/

/-- Square-matrix abbreviation used throughout the level-VAR embedding. -/
def Mat (K : ℕ) : Type := Matrix (Fin K) (Fin K) ℚ

instance (K : ℕ) : AddCommGroup (Mat K) := by unfold Mat; infer_instance

instance (K : ℕ) : One (Mat K) := by unfold Mat; infer_instance

/-- Tail of the level-VAR coefficient list: given the previous `Γ` matrix and
the remaining `Γ` matrices, produces `A_i = Γ_i - Γ_{i-1}` for the middle lags
and `A_{k_ar} = -Γ_{k_ar-1}` for the last one. -/
def varRepTail (K : ℕ) (prev : Mat K) : List (Mat K) → List (Mat K)
  | [] => [-prev]
  | g :: rest => (g - prev) :: varRepTail K g rest

/-- Modelled from the spec: `VECMResults.var_rep` (§4.5; body absent from src).
Converts `Π = α βᵀ` and the list `[Γ_1, …, Γ_{k_ar-1}]` into the `k_ar`
level-VAR coefficient matrices via `A_1 = I + Π + Γ_1`,
`A_i = Γ_i - Γ_{i-1}` for `1 < i < k_ar`, `A_{k_ar} = -Γ_{k_ar-1}`; with no
`Γ` terms, `A_1 = I + Π`. -/
def var_rep (K : ℕ) (Pi : Mat K) : List (Mat K) → List (Mat K)
  | [] => [1 + Pi]
  | g :: rest => (1 + Pi + g) :: varRepTail K g rest

/-- The implied long-run impact matrix recovered from the level-VAR matrices,
`Π = Σ A_i - I`. -/
def piFromVar (K : ℕ) (As : List (Mat K)) : Mat K := As.sum - 1

/-- Modelled from the spec: the cointegration-rank validation performed by the
parameter assembler / `VECM.fit` (§4.4; body absent from src): a requested rank
outside `[0, neqs]` fails with `InvalidRankError`. -/
def fitRankCheck (neqs : ℕ) (r : ℤ) : Except String Unit :=
  if 0 ≤ r ∧ r ≤ (neqs : ℤ) then Except.ok () else Except.error "InvalidRankError"

/-- 1-indexed eigenvalue accessor: `lam1 eig i` is `λ_i` for the 0-indexed
eigenvalue list `eig = [λ_1, …, λ_K]`. -/
def lam1 (eig : List ℚ) (i : ℕ) : ℚ := eig.getD (i - 1) 0

/-- Modelled from the spec: the trace statistic computed by `coint_johansen`
(§4.6; body absent from src). For candidate rank `r` the code forms
`-n * sum(log(1 - eig)[r:])` over the (0-indexed) eigenvalue array `eig`;
`ln` is the logarithm of the numeric library. -/
def trace_stat (ln : ℚ → ℚ) (n : ℚ) (eig : List ℚ) (r : ℕ) : ℚ :=
  -n * (((eig.drop r).map (fun lam => ln (1 - lam))).sum)

/-- Modelled from the spec: the max-eigenvalue statistic computed by
`coint_johansen` (§4.6; body absent from src): `-n * log(1 - eig[r])`. -/
def max_eig_stat (ln : ℚ → ℚ) (n : ℚ) (eig : List ℚ) (r : ℕ) : ℚ :=
  -n * ln (1 - eig.getD r 0)

/-- Modelled from the spec: the rank-selection loop of `select_coint_rank`
(§3, §4.6; body absent from src). Scans `fuel` candidate ranks starting at
`start`; at the first rank whose test statistic is below its critical value
(the null is not rejected) it stops and returns that rank; if every candidate
is rejected it returns `start + fuel`. -/
def scanRank (stat crit : ℕ → ℚ) : ℕ → ℕ → ℕ
  | start, 0 => start
  | start, fuel + 1 =>
    if stat start < crit start then start else scanRank stat crit (start + 1) fuel

/-- Modelled from the spec: `select_coint_rank` scans candidate ranks
`0, …, neqs - 1` in increasing order and returns the first non-rejected rank,
or `neqs` when every candidate rank is rejected. -/
def select_coint_rank (neqs : ℕ) (stat crit : ℕ → ℚ) : ℕ :=
  scanRank stat crit 0 neqs

/-- One-step first differences of a series row:
`diffRow [y_0, …, y_{T-1}] = [y_1 - y_0, …, y_{T-1} - y_{T-2}]`. -/
def diffRow : List ℚ → List ℚ
  | [] => []
  | [_] => []
  | a :: b :: t => (b - a) :: diffRow (b :: t)

/-- Modelled from the spec: `_endog_matrices` (§4.2; body absent from src).
`endog` is the series as `neqs` rows of length `nobs_tot`. Builds the
differenced series `ΔY`, the one-lag levels `Y_{-1}` and the stacked
lagged-difference regressors `ΔX`, all truncated to the common
`nobs = nobs_tot - diff_lags - 1` columns; fails with
`InsufficientDataError` when `nobs_tot ≤ diff_lags + 1` or when fewer than two
series are given. -/
def _endog_matrices (endog : List (List ℚ)) (nobsTot diffLags : ℕ) :
    Except String (List (List ℚ) × List (List ℚ) × List (List ℚ)) :=
  if nobsTot ≤ diffLags + 1 ∨ endog.length < 2 then
    Except.error "InsufficientDataError"
  else
    let nobs := nobsTot - diffLags - 1
    let deltaY := endog.map (fun row => (diffRow row).drop diffLags)
    let yLag1 := endog.map (fun row => (row.drop diffLags).take nobs)
    let deltaX := ((List.range diffLags).map
      (fun j => endog.map
        (fun row => ((diffRow row).drop (diffLags - 1 - j)).take nobs))).flatten
    Except.ok (deltaY, yLag1, deltaX)

/-- `true` exactly on `Except.error`. -/
def isErr {α : Type} (e : Except String α) : Bool :=
  match e with
  | Except.error _ => true
  | Except.ok _ => false

/-- The substring test `pat in s` that Python applies to the `deterministic`
string. -/
def strContains (s pat : List Char) : Bool := decide (pat <:+: s)

/-- `"ci" in deterministic`: constant inside the cointegration relation. -/
def hasCI (d : List Char) : Bool := strContains d ['c', 'i']

/-- `"co" in deterministic`: constant outside the cointegration relation. -/
def hasCO (d : List Char) : Bool := strContains d ['c', 'o']

/-- `"li" in deterministic`: linear trend inside the cointegration relation. -/
def hasLI (d : List Char) : Bool := strContains d ['l', 'i']

/-- `"lo" in deterministic`: linear trend outside the cointegration relation. -/
def hasLO (d : List Char) : Bool := strContains d ['l', 'o']

/-- Column of `nobs` ones: the constant deterministic term. -/
def constCol (nobs : ℕ) : List ℚ := List.replicate nobs 1

/-- Linear-trend column `1, 2, …, nobs`. -/
def trendCol (nobs : ℕ) : List ℚ := (List.range nobs).map (fun t => (t : ℚ) + 1)

/-- Seasonal dummy column `j` (of the `seasons - 1` columns), offset by
`first_season`; the centered variant is demeaned so it is orthogonal to a
constant. -/
def seasonalCol (seasons firstSeason : ℕ) (centered : Bool) (nobs j : ℕ) : List ℚ :=
  (List.range nobs).map (fun t =>
    (if (t + firstSeason) % seasons = j then (1 : ℚ) else 0) -
      (if centered then (1 : ℚ) / seasons else 0))

/-- The `seasons - 1` seasonal dummy columns. -/
def seasonalCols (seasons firstSeason : ℕ) (centered : Bool) (nobs : ℕ) :
    List (List ℚ) :=
  (List.range (seasons - 1)).map (seasonalCol seasons firstSeason centered nobs)

/-- `true` when a user-supplied exogenous array is present and its row count
differs from `nobs_tot`. -/
def badExogRows (o : Option (List (List ℚ))) (nobsTot : ℕ) : Bool :=
  match o with
  | none => false
  | some e => e.length ≠ nobsTot

/-- Modelled from the spec: `_deterministic_to_exog` (§4.1; body absent from
src). Builds the outside-relation regressor columns in the fixed order
constant, seasonal, trend, user-exogenous, and the inside-relation columns;
fails with `ConfigurationError` when both the inside and the outside variant of
the same term type (constant, or linear trend) are requested, or when the row
count of a user-supplied exogenous array differs from `nobs_tot`
(user arrays are given as `nobs_tot` rows and appended column-wise). -/
def _deterministic_to_exog (det : List Char) (seasons nobsTot firstSeason : ℕ)
    (seasonsCentered : Bool) (exog exogCoint : Option (List (List ℚ))) :
    Except String (List (List ℚ) × List (List ℚ)) :=
  if hasCI det && hasCO det then Except.error "ConfigurationError"
  else if hasLI det && hasLO det then Except.error "ConfigurationError"
  else if badExogRows exog nobsTot then Except.error "ConfigurationError"
  else if badExogRows exogCoint nobsTot then Except.error "ConfigurationError"
  else
    let outside :=
      (if hasCO det then [constCol nobsTot] else []) ++
        seasonalCols seasons firstSeason seasonsCentered nobsTot ++
        (if hasLO det then [trendCol nobsTot] else []) ++ (exog.getD []).transpose
    let inside :=
      (if hasCI det then [constCol nobsTot] else []) ++
        (if hasLI det then [trendCol nobsTot] else []) ++
        (exogCoint.getD []).transpose
    Except.ok (outside, inside)

/-- From `VECMResults.__init__`: `np.vsplit(beta, [neqs])` — the first `neqs`
rows of the fitted `beta` argument are `β`, the remaining rows the
inside-deterministic coefficients `det_coef_coint`. -/
def vsplitBeta (neqs : ℕ) (betaArg : List (List ℚ)) : List (List ℚ) × List (List ℚ) :=
  (betaArg.take neqs, betaArg.drop neqs)

/-- From `VECMResults.__init__`: `np.hsplit(gamma, [neqs * (k_ar - 1)])` — the
first `neqs * (k_ar - 1)` columns are `Γ`, the rest `det_coef` (one list entry
per column). -/
def hsplitGamma (neqs kAr : ℕ) (gammaArg : List (List ℚ)) :
    List (List ℚ) × List (List ℚ) :=
  (gammaArg.take (neqs * (kAr - 1)), gammaArg.drop (neqs * (kAr - 1)))

/-- A `1 × coint_rank` zero block, as built by `np.zeros(coint_rank)` reshaped
to one row. -/
def zeroRow (r : ℕ) : List (List ℚ) := [List.replicate r 0]

/-- From `VECMResults.__init__`: `const_coint` is the first row of
`det_coef_coint` when `"ci"` occurs in `deterministic`, else a zero row. -/
def const_coint (det : List Char) (cointRank : ℕ) (detCoefCoint : List (List ℚ)) :
    List (List ℚ) :=
  if hasCI det then detCoefCoint.take 1 else zeroRow cointRank

/-- From `VECMResults.__init__`: `lin_trend_coint` is the row of
`det_coef_coint` after the constant row when `"li"` occurs, else a zero row. -/
def lin_trend_coint (det : List Char) (cointRank : ℕ) (detCoefCoint : List (List ℚ)) :
    List (List ℚ) :=
  if hasLI det then (detCoefCoint.drop (if hasCI det then 1 else 0)).take 1
  else zeroRow cointRank

/-- From `VECMResults.__init__`: the column index `split_const_season` at which
the constant block of `det_coef` ends (`1` iff `"co"` occurs). -/
def splitConstSeason (det : List Char) : ℕ := if hasCO det then 1 else 0

/-- From `VECMResults.__init__`: the `const` attribute — the first
`split_const_season` columns of `det_coef`. -/
def constAttr (det : List Char) (detCoef : List (List ℚ)) : List (List ℚ) :=
  detCoef.take (splitConstSeason det)

/-- A parameter array as `VECMResults.__init__` receives it: real dtype, or
complex128 with entries given as (re, im) pairs (flattened). -/
inductive NpArr
  | real (xs : List ℚ)
  | cplx (xs : List (ℚ × ℚ))
deriving DecidableEq

/-- `np.real_if_close`: a complex array whose imaginary parts all have
magnitude below the tolerance is replaced by its real part; anything else is
returned unchanged. -/
def real_if_close (tol : ℚ) : NpArr → NpArr
  | NpArr.real xs => NpArr.real xs
  | NpArr.cplx xs =>
    if xs.all (fun p => decide (|p.2| < tol)) then NpArr.real (xs.map Prod.fst)
    else NpArr.cplx xs

/-- From `VECMResults.__init__` (lines 879–884): a complex-dtype `alpha`,
`beta` or `gamma` argument is passed through `np.real_if_close` only under the
guard `np.all(np.imag(·) == 0)`; otherwise it is stored unchanged. -/
def coerceParam (tol : ℚ) : NpArr → NpArr
  | NpArr.real xs => NpArr.real xs
  | NpArr.cplx xs =>
    if xs.all (fun p => decide (p.2 = 0)) then real_if_close tol (NpArr.cplx xs)
    else NpArr.cplx xs

/-- Modelled from the spec: the instantaneous-causality test statistic of
`test_inst_causality` (§4.6; body absent from src): a Wald-type functional of
the off-diagonal block of the residual covariance `S` linking the `caused` and
`causing` variable sets, each linking entry `S i j` entering through the
collaborator weighting `g`. -/
def test_inst_causality (K : ℕ) (S : Matrix (Fin K) (Fin K) ℚ) (g : ℚ → ℚ)
    (caused causing : Finset (Fin K)) : ℚ :=
  ∑ i ∈ caused, ∑ j ∈ causing, g (S i j)

/-- Modelled from the spec: `_sij` step 2 (§4.3; body absent from src): the
cross-product matrix `S00 = R0 R0ᵀ / n`, with `ninv` the factor `1/n`. -/
def sMat00 (p T : ℕ) (ninv : ℚ) (R0 : Matrix (Fin p) (Fin T) ℚ) :
    Matrix (Fin p) (Fin p) ℚ := ninv • (R0 * R0.transpose)

/-- Modelled from the spec: `_sij` step 2 (§4.3; body absent from src): the
cross-product matrix `S01 = R0 R1ᵀ / n`; `S10` is its transpose. -/
def sMat01 (p q T : ℕ) (ninv : ℚ) (R0 : Matrix (Fin p) (Fin T) ℚ)
    (R1 : Matrix (Fin q) (Fin T) ℚ) : Matrix (Fin p) (Fin q) ℚ :=
  ninv • (R0 * R1.transpose)

/-- Modelled from the spec: `_sij` step 2 (§4.3; body absent from src): the
cross-product matrix `S11 = R1 R1ᵀ / n`. -/
def sMat11 (q T : ℕ) (ninv : ℚ) (R1 : Matrix (Fin q) (Fin T) ℚ) :
    Matrix (Fin q) (Fin q) ℚ := ninv • (R1 * R1.transpose)

/-- Modelled from the spec: `_sij` step 4 (§4.3) — the eigenvalues delivered
by the dense-linear-algebra collaborator are sorted in descending order. -/
def sortDesc (l : List ℚ) : List ℚ := List.insertionSort (fun a b => b ≤ a) l

/-- Modelled from the spec: `_sij` (§4.3; body absent from src). From the
residuals `R0`, `R1` it forms the cross-product matrices `S00`, `S01`, `S11`
and returns them together with the descending-sorted eigenvalues of the
generalized eigenproblem, whose raw solver output is the external
dense-linear-algebra collaborator list `raw` (§5, §6). -/
def _sij (p q T : ℕ) (ninv : ℚ) (R0 : Matrix (Fin p) (Fin T) ℚ)
    (R1 : Matrix (Fin q) (Fin T) ℚ) (raw : List ℚ) :
    Matrix (Fin p) (Fin p) ℚ × Matrix (Fin p) (Fin q) ℚ ×
      Matrix (Fin q) (Fin q) ℚ × List ℚ :=
  (sMat00 p T ninv R0, sMat01 p q T ninv R0 R1, sMat11 q T ninv R1, sortDesc raw)

/-- Concrete 1 × 2 residual matrix `[1, 0]` used to witness the reduced-rank
regression theorems. -/
def R0w : Matrix (Fin 1) (Fin 2) ℚ := Matrix.of fun _ j => if j = 0 then 1 else 0

/-- Concrete 1 × 2 residual matrix `[0, 1]` used to witness the reduced-rank
regression theorems. -/
def R1w : Matrix (Fin 1) (Fin 2) ℚ := Matrix.of fun _ j => if j = 0 then 0 else 1

/-! ### Lemmas and theorems -/

lemma varRepTail_sum (K : ℕ) (prev : Mat K) (gs : List (Mat K)) :
    (varRepTail K prev gs).sum = -prev := by
  induction gs generalizing prev with
  | nil => simp [varRepTail]
  | cons g rest ih => simp [varRepTail, ih g]; abel

lemma var_rep_sum (K : ℕ) (Pi : Mat K) (gs : List (Mat K)) :
    (var_rep K Pi gs).sum = 1 + Pi := by
  cases gs with
  | nil => simp [var_rep]
  | cons g rest => simp [var_rep, varRepTail_sum]

/-- C4: converting `(α, β, Γ)` to the level-VAR coefficient matrices and then
computing `Σ A_i - I` recovers the original `Π = α βᵀ` (exactly, in exact
arithmetic — in particular within floating-point tolerance). -/
theorem var_rep_roundtrip (K r : ℕ) (alpha beta : Matrix (Fin K) (Fin r) ℚ)
    (gammas : List (Mat K)) :
    piFromVar K (var_rep K (alpha * beta.transpose) gammas) = alpha * beta.transpose := by
  unfold piFromVar
  rw [var_rep_sum]
  abel

/-- C6: the parameter assembler rejects exactly the ranks outside `[0, neqs]`
with `InvalidRankError`, and for rank `0` the zero-column `α` and `β` make
`Π = α βᵀ` exactly the zero matrix. -/
theorem fit_rank_check_and_zero_rank (neqs : ℕ) (r : ℤ) :
    (fitRankCheck neqs r = Except.error "InvalidRankError" ↔ (r < 0 ∨ (neqs : ℤ) < r)) ∧
    (∀ alpha beta : Matrix (Fin neqs) (Fin 0) ℚ, alpha * beta.transpose = 0) := by
  constructor
  · unfold fitRankCheck
    by_cases h : 0 ≤ r ∧ r ≤ (neqs : ℤ)
    · simp only [if_pos h]
      constructor
      · intro hc; exact absurd hc (by simp)
      · intro hc; rcases hc with hc | hc
        · exact absurd h.1 (not_le.mpr hc)
        · exact absurd h.2 (not_le.mpr hc)
    · simp only [if_neg h]
      constructor
      · intro _
        rcases not_and_or.mp h with h1 | h2
        · exact Or.inl (not_le.mp h1)
        · exact Or.inr (not_le.mp h2)
      · intro _; trivial
  · intro alpha beta
    ext i j
    rw [Matrix.mul_apply]
    simp

lemma drop_map_sum (f : ℚ → ℚ) (eig : List ℚ) (r : ℕ) :
    ((eig.drop r).map f).sum =
      ∑ i ∈ Finset.range (eig.length - r), f (eig.getD (r + i) 0) := by
  induction eig generalizing r with
  | nil => simp [Nat.zero_sub]
  | cons a t ih =>
    cases r with
    | zero =>
      rw [List.drop_zero, List.map_cons, List.sum_cons]
      rw [show (a :: t).length - 0 = t.length + 1 from by simp]
      rw [Finset.sum_range_succ']
      simp only [zero_add, List.getD_cons_succ, List.getD_cons_zero]
      rw [add_comm]
      congr 1
      simpa using ih 0
    | succ s =>
      rw [List.drop_succ_cons]
      rw [show (a :: t).length - (s + 1) = t.length - s from by simp]
      rw [ih s]
      apply Finset.sum_congr rfl
      intro i _
      congr 1
      show t.getD (s + i) 0 = (a :: t).getD (s + 1 + i) 0
      rw [show s + 1 + i = (s + i) + 1 from by omega, List.getD_cons_succ]

/-- C2: for every candidate rank `r < K` the trace statistic equals
`-n * Σ_{i=r+1}^{K} ln(1-λ_i)` and the max-eigenvalue statistic equals
`-n * ln(1-λ_{r+1})` (eigenvalues 1-indexed). -/
theorem johansen_stat_formulas (ln : ℚ → ℚ) (n : ℚ) (eig : List ℚ) (r : ℕ)
    (hr : r < eig.length) :
    trace_stat ln n eig r =
      -n * ∑ i ∈ Finset.Ico (r + 1) (eig.length + 1), ln (1 - lam1 eig i) ∧
    max_eig_stat ln n eig r = -n * ln (1 - lam1 eig (r + 1)) := by
  constructor
  · unfold trace_stat
    congr 1
    rw [drop_map_sum, Finset.sum_Ico_eq_sum_range]
    rw [show eig.length + 1 - (r + 1) = eig.length - r from by omega]
    apply Finset.sum_congr rfl
    intro i _
    have hidx : r + 1 + i - 1 = r + i := by omega
    simp [lam1, hidx]
  · unfold max_eig_stat lam1
    simp

/-- Witness for C2 at `ln = id`, `n = 7`, `eig = [1/2, 1/3]`, `r = 0`. -/
theorem johansen_stat_formulas_witness :
    0 < ([(1 : ℚ)/2, 1/3] : List ℚ).length ∧
    (trace_stat id 7 [(1 : ℚ)/2, 1/3] 0 =
        -7 * ∑ i ∈ Finset.Ico 1 3, id (1 - lam1 [(1 : ℚ)/2, 1/3] i) ∧
      max_eig_stat id 7 [(1 : ℚ)/2, 1/3] 0 = -7 * id (1 - lam1 [(1 : ℚ)/2, 1/3] 1)) :=
  ⟨by decide, johansen_stat_formulas id 7 [(1 : ℚ)/2, 1/3] 0 (by decide)⟩

lemma scanRank_le (stat crit : ℕ → ℚ) (fuel start : ℕ) :
    start ≤ scanRank stat crit start fuel ∧ scanRank stat crit start fuel ≤ start + fuel := by
  induction fuel generalizing start with
  | zero => simp [scanRank]
  | succ f ih =>
    unfold scanRank
    by_cases h : stat start < crit start
    · simp [h]
    · simp only [if_neg h]
      have := ih (start + 1)
      omega

lemma scanRank_rejected_before (stat crit : ℕ → ℚ) (fuel start : ℕ) :
    ∀ j, start ≤ j → j < scanRank stat crit start fuel → ¬stat j < crit j := by
  induction fuel generalizing start with
  | zero =>
    intro j hj hlt
    exact absurd (lt_of_le_of_lt hj hlt) (by simp [scanRank])
  | succ f ih =>
    intro j hj hlt
    unfold scanRank at hlt
    by_cases h : stat start < crit start
    · rw [if_pos h] at hlt; omega
    · rw [if_neg h] at hlt
      rcases Nat.eq_or_lt_of_le hj with rfl | hgt
      · exact h
      · exact ih (start + 1) j hgt hlt

lemma scanRank_hit (stat crit : ℕ → ℚ) (fuel start : ℕ)
    (h : scanRank stat crit start fuel < start + fuel) :
    stat (scanRank stat crit start fuel) < crit (scanRank stat crit start fuel) := by
  induction fuel generalizing start with
  | zero => simp [scanRank] at h
  | succ f ih =>
    unfold scanRank at h ⊢
    by_cases hs : stat start < crit start
    · rwa [if_pos hs]
    · rw [if_neg hs] at h ⊢
      exact ih (start + 1) (by omega)

/-- C3: `select_coint_rank` returns a rank `r ≤ neqs` such that every rank
below `r` is rejected, `r` itself (when `r < neqs`) is not rejected — i.e. the
smallest non-rejected rank, scanning in increasing order — and `r = neqs`
whenever every candidate rank `0, …, neqs - 1` is rejected. -/
theorem select_coint_rank_spec (neqs : ℕ) (stat crit : ℕ → ℚ) :
    select_coint_rank neqs stat crit ≤ neqs ∧
    (∀ j < select_coint_rank neqs stat crit, ¬stat j < crit j) ∧
    (select_coint_rank neqs stat crit < neqs →
      stat (select_coint_rank neqs stat crit) < crit (select_coint_rank neqs stat crit)) ∧
    ((∀ j < neqs, ¬stat j < crit j) → select_coint_rank neqs stat crit = neqs) := by
  refine ⟨?_, ?_, ?_, ?_⟩
  · have := scanRank_le stat crit neqs 0
    unfold select_coint_rank
    omega
  · intro j hj
    exact scanRank_rejected_before stat crit neqs 0 j (Nat.zero_le j) hj
  · intro h
    exact scanRank_hit stat crit neqs 0 (by unfold select_coint_rank at h; omega)
  · intro hall
    by_contra hne
    have hle := (scanRank_le stat crit neqs 0).2
    have hlt : select_coint_rank neqs stat crit < neqs := by
      unfold select_coint_rank at hne ⊢; omega
    exact hall _ hlt (scanRank_hit stat crit neqs 0 (by unfold select_coint_rank at hlt; omega))

/-- Witness for C3 at `neqs = 3`, `stat j = j`, `crit j = 2`: rank 0 is the
first non-rejection, so it is selected. -/
theorem select_coint_rank_spec_witness :
    select_coint_rank 3 (fun j => (j : ℚ)) (fun _ => 2) < 3 ∧
    (fun j => (j : ℚ)) (select_coint_rank 3 (fun j => (j : ℚ)) (fun _ => 2)) < 2 := by
  have h := select_coint_rank_spec 3 (fun j => (j : ℚ)) (fun _ => 2)
  exact ⟨by decide, h.2.2.1 (by decide)⟩

/-- C5: matrix preparation fails with `InsufficientDataError` exactly when
`nobs_tot ≤ k_ar_diff + 1` or `neqs < 2`; in particular `k_ar_diff = 0` on a
valid (at-least-two-series) input does not raise whenever `nobs_tot > 1`. -/
theorem endog_matrices_error_iff (endog : List (List ℚ)) (nobsTot diffLags : ℕ) :
    (isErr (_endog_matrices endog nobsTot diffLags) = true ↔
      (nobsTot ≤ diffLags + 1 ∨ endog.length < 2)) ∧
    (2 ≤ endog.length → 1 < nobsTot →
      isErr (_endog_matrices endog nobsTot 0) = false) := by
  constructor
  · unfold _endog_matrices
    by_cases h : nobsTot ≤ diffLags + 1 ∨ endog.length < 2
    · simp [if_pos h, isErr, h]
    · simp [if_neg h, isErr, h]
  · intro hneqs hnobs
    unfold _endog_matrices
    have h : ¬(nobsTot ≤ 0 + 1 ∨ endog.length < 2) := by omega
    simp [if_neg h, isErr]

/-- Witness for C5 at a two-series, three-observation input with
`k_ar_diff = 0`: no `InsufficientDataError`. -/
theorem endog_matrices_error_iff_witness :
    (2 ≤ ([[0, 1, 2], [0, 2, 4]] : List (List ℚ)).length ∧ 1 < 3) ∧
    isErr (_endog_matrices [[0, 1, 2], [0, 2, 4]] 3 0) = false :=
  ⟨⟨by decide, by decide⟩,
    (endog_matrices_error_iff [[0, 1, 2], [0, 2, 4]] 3 0).2 (by decide) (by decide)⟩

lemma deterministic_to_exog_isErr (det : List Char) (seasons nobsTot firstSeason : ℕ)
    (seasonsCentered : Bool) (exog exogCoint : Option (List (List ℚ))) :
    isErr (_deterministic_to_exog det seasons nobsTot firstSeason seasonsCentered
        exog exogCoint) =
      ((hasCI det && hasCO det) || (hasLI det && hasLO det) ||
        badExogRows exog nobsTot || badExogRows exogCoint nobsTot) := by
  unfold _deterministic_to_exog
  by_cases h1 : (hasCI det && hasCO det) = true
  · simp [h1, isErr]
  · by_cases h2 : (hasLI det && hasLO det) = true
    · simp [h1, h2, isErr]
    · by_cases h3 : badExogRows exog nobsTot = true
      · simp [h1, h2, h3, isErr]
      · by_cases h4 : badExogRows exogCoint nobsTot = true
        · simp [h1, h2, h3, h4, isErr]
        · simp [h1, h2, h3, h4, isErr]

/-- C8: the deterministic-term builder fails with `ConfigurationError` exactly
when both variants of the constant are requested, both variants of the linear
trend are requested, or the row count of a user exogenous array does not equal
`nobs_tot`. -/
theorem deterministic_to_exog_error_iff (det : List Char) (seasons nobsTot firstSeason : ℕ)
    (seasonsCentered : Bool) (exog exogCoint : Option (List (List ℚ))) :
    isErr (_deterministic_to_exog det seasons nobsTot firstSeason seasonsCentered
        exog exogCoint) = true ↔
      ((hasCI det = true ∧ hasCO det = true) ∨ (hasLI det = true ∧ hasLO det = true) ∨
        (∃ e, exog = some e ∧ e.length ≠ nobsTot) ∨
        (∃ e, exogCoint = some e ∧ e.length ≠ nobsTot)) := by
  have hbad : ∀ o : Option (List (List ℚ)), badExogRows o nobsTot = true ↔
      ∃ e, o = some e ∧ e.length ≠ nobsTot := by
    intro o
    cases o with
    | none => simp [badExogRows]
    | some e => simp [badExogRows]
  rw [deterministic_to_exog_isErr]
  simp only [Bool.or_eq_true, Bool.and_eq_true, hbad]
  rw [or_assoc, or_assoc]

/-- C9: a `"ci"` fit stores the estimated constant in `const_coint` and leaves
`const` empty; a `"co"` fit stores it in `const` and leaves `const_coint` a
zero row; and for any deterministic string not containing both `"ci"` and
`"co"`, at most one of the two carries estimated coefficients. -/
theorem const_vs_const_coint (r : ℕ) (dcc dc : List (List ℚ)) :
    (constAttr ['c', 'i'] dc = [] ∧ const_coint ['c', 'i'] r dcc = dcc.take 1) ∧
    (const_coint ['c', 'o'] r dcc = zeroRow r ∧ constAttr ['c', 'o'] dc = dc.take 1) ∧
    (∀ det, ¬(hasCI det = true ∧ hasCO det = true) →
      constAttr det dc = [] ∨ const_coint det r dcc = zeroRow r) := by
  refine ⟨⟨?_, ?_⟩, ⟨?_, ?_⟩, ?_⟩
  · simp [constAttr, splitConstSeason, show hasCO ['c', 'i'] = false from by decide]
  · simp [const_coint, show hasCI ['c', 'i'] = true from by decide]
  · simp [const_coint, show hasCI ['c', 'o'] = false from by decide]
  · simp [constAttr, splitConstSeason, show hasCO ['c', 'o'] = true from by decide]
  · intro det h
    by_cases hci : hasCI det = true
    · have hco : hasCO det = false := by
        cases hval : hasCO det
        · rfl
        · exact absurd ⟨hci, hval⟩ h
      exact Or.inl (by simp [constAttr, splitConstSeason, hco])
    · exact Or.inr (by simp [const_coint, hci])

/-- Witness for C9, the general clause at `deterministic = "n"`. -/
theorem const_vs_const_coint_witness :
    ¬(hasCI ['n'] = true ∧ hasCO ['n'] = true) ∧
    (constAttr ['n'] [[7]] = [] ∨ const_coint ['n'] 1 [[5]] = zeroRow 1) :=
  ⟨by decide, (const_vs_const_coint 1 [[5]] [[7]]).2.2 ['n'] (by decide)⟩

/-- C10: with any positive tolerance, a real argument is stored unchanged; a
complex argument is cast to the real array of its real parts exactly when every
imaginary part is exactly zero; and a complex argument with some nonzero
imaginary part is stored unchanged (no error in any case — `coerceParam` is
total). -/
theorem coerce_complex_iff (tol : ℚ) (htol : 0 < tol) (ys : List ℚ)
    (xs : List (ℚ × ℚ)) :
    coerceParam tol (NpArr.real ys) = NpArr.real ys ∧
    (coerceParam tol (NpArr.cplx xs) = NpArr.real (xs.map Prod.fst) ↔
      ∀ p ∈ xs, p.2 = 0) ∧
    ((∃ p ∈ xs, p.2 ≠ 0) → coerceParam tol (NpArr.cplx xs) = NpArr.cplx xs) := by
  have hiff : (xs.all (fun p => decide (p.2 = 0)) = true) ↔ ∀ p ∈ xs, p.2 = 0 := by
    simp [List.all_eq_true]
  refine ⟨rfl, ?_, ?_⟩
  · by_cases hall : ∀ p ∈ xs, p.2 = 0
    · have h1 : xs.all (fun p => decide (p.2 = 0)) = true := hiff.mpr hall
      have h2 : xs.all (fun p => decide (|p.2| < tol)) = true := by
        simp only [List.all_eq_true, decide_eq_true_eq] at h1 ⊢
        intro p hp
        rw [hall p hp]
        simpa using htol
      simp only [coerceParam, real_if_close, h1, h2, if_true, true_iff]
      exact hall
    · have h1 : ¬xs.all (fun p => decide (p.2 = 0)) = true := fun hc => hall (hiff.mp hc)
      simp only [coerceParam, if_neg h1]
      constructor
      · intro hc; cases hc
      · intro hc; exact absurd hc hall
  · intro ⟨p, hp, hne⟩
    have h1 : ¬xs.all (fun q => decide (q.2 = 0)) = true := by
      intro hc; exact hne (hiff.mp hc p hp)
    simp [coerceParam, if_neg h1]

/-- Witness for C10 at `tol = 1`, a real array `[3]` and the complex array
`[(2, 1)]` (nonzero imaginary part). -/
theorem coerce_complex_iff_witness :
    (0 : ℚ) < 1 ∧
    (coerceParam 1 (NpArr.real [3]) = NpArr.real [3] ∧
      (coerceParam 1 (NpArr.cplx [((2 : ℚ), (1 : ℚ))]) =
          NpArr.real (([((2 : ℚ), (1 : ℚ))] : List (ℚ × ℚ)).map Prod.fst) ↔
        ∀ p ∈ ([((2 : ℚ), (1 : ℚ))] : List (ℚ × ℚ)), p.2 = 0) ∧
      ((∃ p ∈ ([((2 : ℚ), (1 : ℚ))] : List (ℚ × ℚ)), p.2 ≠ 0) →
        coerceParam 1 (NpArr.cplx [((2 : ℚ), (1 : ℚ))]) =
          NpArr.cplx [((2 : ℚ), (1 : ℚ))])) := by
  refine ⟨by norm_num, ?_⟩
  exact coerce_complex_iff 1 (by norm_num) [3] [((2 : ℚ), (1 : ℚ))]

/-- C7: for disjoint variable sets `A` and `B` and a symmetric residual
covariance, the instantaneous-causality statistic is symmetric in its two
arguments. -/
theorem inst_causality_symm (K : ℕ) (S : Matrix (Fin K) (Fin K) ℚ) (g : ℚ → ℚ)
    (A B : Finset (Fin K)) (hdisj : Disjoint A B) (hsym : S.IsSymm) :
    test_inst_causality K S g A B = test_inst_causality K S g B A := by
  unfold test_inst_causality
  rw [Finset.sum_comm]
  apply Finset.sum_congr rfl
  intro j _
  apply Finset.sum_congr rfl
  intro i _
  rw [hsym.apply]

/-- Witness for C7 at `K = 2`, `S = 1`, `A = {0}`, `B = {1}`. -/
theorem inst_causality_symm_witness :
    Disjoint ({0} : Finset (Fin 2)) {1} ∧
    test_inst_causality 2 1 id {0} {1} = test_inst_causality 2 1 id {1} {0} :=
  ⟨by decide, inst_causality_symm 2 1 id {0} {1} (by decide) Matrix.isSymm_one⟩

lemma posDef_isUnit {k : ℕ} {M : Matrix (Fin k) (Fin k) ℚ} (hM : M.PosDef) :
    IsUnit M := by
  rw [← Matrix.mulVec_injective_iff_isUnit]
  intro x y hxy
  by_contra hne
  have hsub : M *ᵥ (x - y) = 0 := by
    rw [Matrix.mulVec_sub, hxy, sub_self]
  have h0 : x - y ≠ 0 := sub_ne_zero.mpr hne
  have hpos := hM.2 (x - y) h0
  rw [hsub] at hpos
  simp at hpos

lemma fromBlocks_posDef_left {p q : ℕ} {A : Matrix (Fin p) (Fin p) ℚ}
    {B : Matrix (Fin p) (Fin q) ℚ} {C : Matrix (Fin q) (Fin p) ℚ}
    {D : Matrix (Fin q) (Fin q) ℚ}
    (h : (Matrix.fromBlocks A B C D).PosDef) : A.PosDef := by
  constructor
  · exact (Matrix.isHermitian_fromBlocks_iff.mp h.1).1
  · intro x hx
    have hz : (Sum.elim x (0 : Fin q → ℚ)) ≠ 0 := by
      intro hc
      apply hx
      funext i
      exact congrFun hc (Sum.inl i)
    have hpos := h.2 _ hz
    simpa [Matrix.fromBlocks_mulVec, Matrix.sum_elim_dotProduct_sum_elim,
      Function.star_sum_elim] using hpos

lemma fromBlocks_posDef_right {p q : ℕ} {A : Matrix (Fin p) (Fin p) ℚ}
    {B : Matrix (Fin p) (Fin q) ℚ} {C : Matrix (Fin q) (Fin p) ℚ}
    {D : Matrix (Fin q) (Fin q) ℚ}
    (h : (Matrix.fromBlocks A B C D).PosDef) : D.PosDef := by
  constructor
  · exact (Matrix.isHermitian_fromBlocks_iff.mp h.1).2.2.2
  · intro y hy
    have hz : (Sum.elim (0 : Fin p → ℚ) y) ≠ 0 := by
      intro hc
      apply hy
      funext i
      exact congrFun hc (Sum.inr i)
    have hpos := h.2 _ hz
    simpa [Matrix.fromBlocks_mulVec, Matrix.sum_elim_dotProduct_sum_elim,
      Function.star_sum_elim] using hpos

lemma star_vec_eq {k : ℕ} (v : Fin k → ℚ) : star v = v := by
  funext i
  simp

lemma gen_eig_bounds {p q T : ℕ} (ninv : ℚ)
    (R0 : Matrix (Fin p) (Fin T) ℚ) (R1 : Matrix (Fin q) (Fin T) ℚ)
    (hPD : (Matrix.fromBlocks (sMat00 p T ninv R0) (sMat01 p q T ninv R0 R1)
      (sMat01 p q T ninv R0 R1).transpose (sMat11 q T ninv R1)).PosDef)
    (lam : ℚ) (v : Fin q → ℚ) (hv : v ≠ 0)
    (heig : lam • (sMat11 q T ninv R1 *ᵥ v) =
      ((sMat01 p q T ninv R0 R1).transpose * (sMat00 p T ninv R0)⁻¹ *
        sMat01 p q T ninv R0 R1) *ᵥ v) :
    0 ≤ lam ∧ lam < 1 := by
  set A := sMat00 p T ninv R0 with hAdef
  set B := sMat01 p q T ninv R0 R1 with hBdef
  set D := sMat11 q T ninv R1 with hDdef
  have hBH : B.conjTranspose = B.transpose :=
    Matrix.conjTranspose_eq_transpose_of_trivial B
  have hA : A.PosDef := fromBlocks_posDef_left hPD
  have hD : D.PosDef := fromBlocks_posDef_right hPD
  have hAu : IsUnit A := posDef_isUnit hA
  haveI : Invertible A := hAu.invertible
  have hd : 0 < v ⬝ᵥ (D *ᵥ v) := by
    have := hD.2 v hv
    rwa [star_vec_eq] at this
  have heigd : lam * (v ⬝ᵥ (D *ᵥ v)) = v ⬝ᵥ ((B.transpose * A⁻¹ * B) *ᵥ v) := by
    have hcongr := congrArg (fun w => v ⬝ᵥ w) heig
    simpa [Matrix.dotProduct_smul, smul_eq_mul] using hcongr
  have hNw : v ⬝ᵥ ((B.transpose * A⁻¹ * B) *ᵥ v) =
      (B *ᵥ v) ⬝ᵥ (A⁻¹ *ᵥ (B *ᵥ v)) := by
    rw [show (B.transpose * A⁻¹ * B) *ᵥ v = B.transpose *ᵥ (A⁻¹ *ᵥ (B *ᵥ v)) from by
      rw [← Matrix.mulVec_mulVec, ← Matrix.mulVec_mulVec]]
    rw [Matrix.dotProduct_mulVec, Matrix.vecMul_transpose]
  have hN : 0 ≤ v ⬝ᵥ ((B.transpose * A⁻¹ * B) *ᵥ v) := by
    rw [hNw]
    set u := A⁻¹ *ᵥ (B *ᵥ v) with hu
    have hw : B *ᵥ v = A *ᵥ u := by
      rw [hu, Matrix.mulVec_mulVec, Matrix.mul_inv_of_invertible, Matrix.one_mulVec]
    rw [hw, Matrix.dotProduct_comm]
    have hps := hA.posSemidef.2 u
    rwa [star_vec_eq] at hps
  have hlam0 : 0 ≤ lam := by nlinarith [heigd, hN, hd]
  have hPDH : (Matrix.fromBlocks A B B.conjTranspose D).PosDef := by
    rwa [hBH]
  have hz : (Sum.elim (-((A⁻¹ * B) *ᵥ v)) v) ≠ 0 := by
    intro hc
    apply hv
    funext i
    exact congrFun hc (Sum.inr i)
  have hq := hPDH.2 _ hz
  rw [Matrix.dotProduct_mulVec] at hq
  rw [Matrix.schur_complement_eq₁₁ B D _ _ hA.1] at hq
  rw [neg_add_cancel] at hq
  simp only [star_zero, Matrix.zero_vecMul, Matrix.zero_dotProduct, zero_add] at hq
  rw [star_vec_eq] at hq
  rw [← Matrix.dotProduct_mulVec] at hq
  rw [hBH] at hq
  rw [Matrix.sub_mulVec, Matrix.dotProduct_sub] at hq
  constructor
  · exact hlam0
  · nlinarith [heigd, hq, hd]

/-- C1: the eigenvalues returned by the reduced-rank regression core are
rational (hence real) numbers, lie in `[0, 1)` for valid input (the joint
cross-product matrix of the residuals is positive definite and each raw
eigenvalue solves the generalized eigenproblem with a nonzero eigenvector),
are sorted in descending order, and the decomposition is a pure function of
its input, so re-running it yields the identical result. -/
theorem sij_eigenvalue_spec (p q T : ℕ) (ninv : ℚ)
    (R0 : Matrix (Fin p) (Fin T) ℚ) (R1 : Matrix (Fin q) (Fin T) ℚ)
    (raw : List ℚ)
    (hPD : (Matrix.fromBlocks (sMat00 p T ninv R0) (sMat01 p q T ninv R0 R1)
      (sMat01 p q T ninv R0 R1).transpose (sMat11 q T ninv R1)).PosDef)
    (hsolver : ∀ lam ∈ raw, ∃ v : Fin q → ℚ, v ≠ 0 ∧
      lam • (sMat11 q T ninv R1 *ᵥ v) =
        ((sMat01 p q T ninv R0 R1).transpose * (sMat00 p T ninv R0)⁻¹ *
          sMat01 p q T ninv R0 R1) *ᵥ v) :
    (∀ lam ∈ (_sij p q T ninv R0 R1 raw).2.2.2, 0 ≤ lam ∧ lam < 1) ∧
    (_sij p q T ninv R0 R1 raw).2.2.2.Sorted (fun a b => b ≤ a) ∧
    _sij p q T ninv R0 R1 raw = _sij p q T ninv R0 R1 raw := by
  refine ⟨?_, List.sorted_insertionSort _ raw, rfl⟩
  intro lam hmem
  have hmem2 : lam ∈ raw :=
    ((List.perm_insertionSort (fun a b => b ≤ a) raw).mem_iff).mp hmem
  obtain ⟨v, hv, heig⟩ := hsolver lam hmem2
  exact gen_eig_bounds ninv R0 R1 hPD lam v hv heig

/-- Witness for C1 at the orthogonal residuals `R0w`, `R1w` (joint
cross-product matrix is the identity, hence positive definite) and the raw
solver output `[0]` with eigenvector `(1)`. -/
theorem sij_eigenvalue_spec_witness :
    ((Matrix.fromBlocks (sMat00 1 2 1 R0w) (sMat01 1 1 2 1 R0w R1w)
        (sMat01 1 1 2 1 R0w R1w).transpose (sMat11 1 2 1 R1w)).PosDef ∧
      True) ∧
    (∀ lam ∈ (_sij 1 1 2 1 R0w R1w [0]).2.2.2, 0 ≤ lam ∧ lam < 1) := by
  have h00 : sMat00 1 2 1 R0w = 1 := by
    rw [← Matrix.ext_iff]
    intro i j
    fin_cases i; fin_cases j
    simp [sMat00, R0w, Matrix.mul_apply, Fin.sum_univ_two, Matrix.one_apply]
  have h01 : sMat01 1 1 2 1 R0w R1w = 0 := by
    rw [← Matrix.ext_iff]
    intro i j
    fin_cases i; fin_cases j
    simp [sMat01, R0w, R1w, Matrix.mul_apply, Fin.sum_univ_two]
  have h11 : sMat11 1 2 1 R1w = 1 := by
    rw [← Matrix.ext_iff]
    intro i j
    fin_cases i; fin_cases j
    simp [sMat11, R1w, Matrix.mul_apply, Fin.sum_univ_two, Matrix.one_apply]
  have hPD : (Matrix.fromBlocks (sMat00 1 2 1 R0w) (sMat01 1 1 2 1 R0w R1w)
      (sMat01 1 1 2 1 R0w R1w).transpose (sMat11 1 2 1 R1w)).PosDef := by
    rw [h00, h01, Matrix.transpose_zero, h11, Matrix.fromBlocks_one]
    exact Matrix.PosDef.one
  have hsolver : ∀ lam ∈ [(0 : ℚ)], ∃ v : Fin 1 → ℚ, v ≠ 0 ∧
      lam • (sMat11 1 2 1 R1w *ᵥ v) =
        ((sMat01 1 1 2 1 R0w R1w).transpose * (sMat00 1 2 1 R0w)⁻¹ *
          sMat01 1 1 2 1 R0w R1w) *ᵥ v := by
    intro lam hlam
    have hlam0 : lam = 0 := by simpa using hlam
    subst hlam0
    refine ⟨fun _ => 1, ?_, ?_⟩
    · intro hc
      have := congrFun hc 0
      norm_num at this
    · rw [h01, Matrix.transpose_zero, Matrix.zero_mul, Matrix.zero_mul,
        Matrix.zero_mulVec, zero_smul]
  exact ⟨⟨hPD, trivial⟩, (sij_eigenvalue_spec 1 1 2 1 R0w R1w [0] hPD hsolver).1⟩

end VecmSpec
